import Mathlib

set_option linter.unusedVariables false

namespace YuniKorn

/-! ### Resource vectors

Modelled from the spec: the `resources` package is not part of the sources under
verification, so the Resource Vector data type and its operations (`add`,
`FitIn`, `NewResource`) follow §3 of the specification: a mapping from
dimension name to a signed quantity, elementwise addition over the union of
dimensions, and a fits-within comparison where an absent dimension counts as
zero on both sides. -/

/-- Modelled from the spec: a resource vector, a finite mapping from dimension
name to signed quantity, represented as an association list. -/
structure Resource where
  res : List (String × Int)
deriving Repr, DecidableEq

/-- Quantity of dimension `k`; an absent dimension is implicitly zero. -/
def Resource.get (r : Resource) (k : String) : Int :=
  match r.res.find? (fun p => decide (p.1 = k)) with
  | some p => p.2
  | none => 0

/-- Dimension names present in the vector. -/
def Resource.keys (r : Resource) : List String := r.res.map Prod.fst

/-- Modelled from the spec: elementwise sum over the union of dimensions. -/
def Resource.add (a b : Resource) : Resource :=
  ⟨(a.keys ++ b.keys.filter (fun k => !a.keys.any (fun k2 => decide (k2 = k)))).map
    (fun k => (k, a.get k + b.get k))⟩

/-- Modelled from the spec: Go's `AddTo` on a nil resource adds nothing. -/
def Resource.addOpt (a : Resource) (b : Option Resource) : Resource :=
  match b with
  | none => a
  | some r => a.add r

/-- Modelled from the spec: `FitIn larger smaller` is true iff for every
dimension present in either vector the smaller quantity is at most the larger
one, an absent dimension counting as zero. -/
def FitIn (larger smaller : Resource) : Bool :=
  (larger.keys ++ smaller.keys).all (fun k => decide (smaller.get k ≤ larger.get k))

/-! ### Queue nodes and the hierarchy validator (from `initializer.go`) -/

/-- A queue node: name, optional guaranteed and maximum resource vectors, and
children.  Embeds the fields of `QueueInfo` read by the validator. -/
inductive QueueInfo : Type where
  | node (Name : String) (guaranteedResource maxResource : Option Resource)
      (children : List QueueInfo)
deriving Repr

def QueueInfo.Name : QueueInfo → String
  | .node n _ _ _ => n

def QueueInfo.guaranteedResource : QueueInfo → Option Resource
  | .node _ g _ _ => g

def QueueInfo.maxResource : QueueInfo → Option Resource
  | .node _ _ m _ => m

def QueueInfo.children : QueueInfo → List QueueInfo
  | .node _ _ _ cs => cs

/-- The three `fmt.Errorf` sites of `checkResourceConfigurationsForQueue`,
as a tagged error type carrying the queue name and the two compared vectors. -/
inductive CheckError : Type where
  | guaranteedBelowChildren (queue : String) (guaranteed sum : Resource)
  | maxExceedsParent (queue : String) (max parentMax : Resource)
  | maxBelowGuaranteed (queue : String) (max guaranteed : Resource)
deriving Repr, DecidableEq

/-- Go: `sum := resources.NewResource(); for child { sum.AddTo(child.guaranteedResource) }`. -/
def sumGuaranteed (cs : List QueueInfo) : Resource :=
  cs.foldl (fun acc c => acc.addOpt c.guaranteedResource) ⟨[]⟩

/-- The max-resource section of `checkResourceConfigurationsForQueue`
(initializer.go lines 198–209): run after the guaranteed section has updated
`cur`; checks `cur.max` against `parent.max` and `cur.guaranteed` against
`cur.max`, only when `cur.max` is set. -/
def checkMax (cur : QueueInfo) (parent : Option QueueInfo) : Except CheckError QueueInfo :=
  match cur.maxResource with
  | none => .ok cur
  | some mr =>
    match parent with
    | some par =>
      match par.maxResource with
      | some pm =>
        if FitIn pm mr then
          if FitIn mr ((cur.guaranteedResource).getD ⟨[]⟩) then .ok cur
          else .error (.maxBelowGuaranteed cur.Name mr ((cur.guaranteedResource).getD ⟨[]⟩))
        else .error (.maxExceedsParent cur.Name mr pm)
      | none =>
        if FitIn mr ((cur.guaranteedResource).getD ⟨[]⟩) then .ok cur
        else .error (.maxBelowGuaranteed cur.Name mr ((cur.guaranteedResource).getD ⟨[]⟩))
    | none =>
      if FitIn mr ((cur.guaranteedResource).getD ⟨[]⟩) then .ok cur
      else .error (.maxBelowGuaranteed cur.Name mr ((cur.guaranteedResource).getD ⟨[]⟩))

mutual

/-- `checkResourceConfigurationsForQueue` (initializer.go lines 171–212).
Go mutates the tree in place (inferring unset guaranteed vectors); here the
updated node is returned on success. -/
def checkResourceConfigurationsForQueue (cur : QueueInfo) (parent : Option QueueInfo) :
    Except CheckError QueueInfo :=
  match cur with
  | .node name g m cs =>
    let phase1 : Except CheckError QueueInfo :=
      if 0 < cs.length then
        match checkChildren cs (.node name g m cs) with
        | .error e => .error e
        | .ok cs2 =>
          let sum := sumGuaranteed cs2
          match g with
          | some gr =>
            if FitIn gr sum then .ok (.node name (some gr) m cs2)
            else .error (.guaranteedBelowChildren name gr sum)
          | none => .ok (.node name (some sum) m cs2)
      else
        match g with
        | none => .ok (.node name (some ⟨[]⟩) m cs)
        | some gr => .ok (.node name (some gr) m cs)
    match phase1 with
    | .error e => .error e
    | .ok cur2 => checkMax cur2 parent

/-- The child-recursion loop of `checkResourceConfigurationsForQueue`
(initializer.go lines 175–179): each child is checked with the current node as
parent; the first failure aborts. -/
def checkChildren (cs : List QueueInfo) (parent : QueueInfo) :
    Except CheckError (List QueueInfo) :=
  match cs with
  | [] => .ok []
  | c :: rest =>
    match checkResourceConfigurationsForQueue c (some parent) with
    | .error e => .error e
    | .ok c2 =>
      match checkChildren rest parent with
      | .error e => .error e
      | .ok rest2 => .ok (c2 :: rest2)

end

/-- The guaranteed-resource section of `checkResourceConfigurationsForQueue`
(initializer.go lines 172–196), factored out: recurses into the children, sums
their guaranteed vectors, checks a declared guarantee against the sum or infers
an unset one (the sum for inner nodes, the zero vector for leaves). -/
def checkGuaranteed (cur : QueueInfo) : Except CheckError QueueInfo :=
  match cur with
  | .node name g m cs =>
    if 0 < cs.length then
      match checkChildren cs (.node name g m cs) with
      | .error e => .error e
      | .ok cs2 =>
        let sum := sumGuaranteed cs2
        match g with
        | some gr =>
          if FitIn gr sum then .ok (.node name (some gr) m cs2)
          else .error (.guaranteedBelowChildren name gr sum)
        | none => .ok (.node name (some sum) m cs2)
    else
      match g with
      | none => .ok (.node name (some ⟨[]⟩) m cs)
      | some gr => .ok (.node name (some gr) m cs)

mutual

/-- All subtrees of a queue node (the node itself included). -/
def QueueInfo.subtrees : QueueInfo → List QueueInfo
  | .node n g m cs => .node n g m cs :: subtreesList cs

/-- All subtrees of the members of a list of queue nodes. -/
def subtreesList : List QueueInfo → List QueueInfo
  | [] => []
  | c :: rest => c.subtrees ++ subtreesList rest

end

/-- The guarantee-sum invariant at one node: the node's guaranteed vector is
set and the elementwise sum of its children's guaranteed vectors fits in it. -/
def guaranteeSumOk (t : QueueInfo) : Bool :=
  match t.guaranteedResource with
  | some g => FitIn g (sumGuaranteed t.children)
  | none => false

/-! ### Partitions and the topology registry

`PartitionInfo`, `ClusterInfo` and the collaborators `newPartitionInfo`,
`updatePartitionDetails`, `markPartitionForRemoval`, `addPartition`,
`GetNormalizedPartitionName`, `SchedulerConfigLoader` and
`ConfigContext` are declared outside `initializer.go`; their data and
behaviour are modelled from the spec (§3, §4.1, §6).  The control flow of
`createPartitionInfos`, `SetClusterInfoFromConfigFile` and
`UpdateClusterInfoFromConfigFile` is embedded from `initializer.go` itself.
Go's multi-value returns `(lists..., error)` are embedded as result structures
with an `Option InitError` field; Go's in-place mutation of `clusterInfo` and
of partitions reached through registry pointers is embedded by threading the
registry state. -/

/-- Modelled from the spec: a partition's lifecycle state (§3). -/
inductive PartitionState : Type where
  | active
  | pendingRemoval
deriving Repr, DecidableEq

/-- Modelled from the spec: a Partition — name, root queue node, lifecycle
state, owning resource-manager identity (§3). -/
structure PartitionInfo where
  Name : String
  Root : QueueInfo
  state : PartitionState
  rmID : String
deriving Repr

/-- Modelled from the spec: one partition entry of the configuration — a name
and the queue definitions, which already have tree shape (§4.1: "build a Queue
Node tree from the entry's queue definitions"). -/
structure PartitionConfig where
  Name : String
  Queues : QueueInfo
deriving Repr

/-- The validated configuration handed in by the external loader. -/
structure SchedulerConfig where
  Partitions : List PartitionConfig
deriving Repr

/-- Association-list update, modelling assignment `m[k] = v` on a Go map
(insertion order kept, first matching key replaced). -/
def assocSet {α : Type} : List (String × α) → String → α → List (String × α)
  | [], k, v => [(k, v)]
  | (k1, v1) :: rest, k, v =>
    if k1 = k then (k, v) :: rest else (k1, v1) :: assocSet rest k v

/-- Association-list lookup, modelling `v, ok := m[k]` on a Go map. -/
def assocGet {α : Type} : List (String × α) → String → Option α
  | [], _ => none
  | (k1, v1) :: rest, k => if k1 = k then some v1 else assocGet rest k

/-- Modelled from the spec: `common.GetNormalizedPartitionName` combines the
configured partition name with the resource-manager identity to make it unique
across resource managers (§4.1). -/
def GetNormalizedPartitionName (partitionName rmID : String) : String :=
  "[" ++ rmID ++ "]" ++ partitionName

/-- The topology registry: partitions keyed by normalized name, plus the
active policy group.  A map value is an `Option PartitionInfo` because the Go
map stores `*PartitionInfo` pointers, which can be nil. -/
structure ClusterInfo where
  partitions : List (String × Option PartitionInfo)
  policyGroup : String
deriving Repr

/-- Modelled from the spec: `clusterInfo.addPartition` stores the given
partition pointer under the given name (§4.1 "insert it into the registry"). -/
def ClusterInfo.addPartition (ci : ClusterInfo) (k : String) (v : Option PartitionInfo) :
    ClusterInfo :=
  { ci with partitions := assocSet ci.partitions k v }

/-- Error type covering the `fmt.Errorf` sites of `initializer.go`, the
loader's error, and the validator's errors.  `nilPartition` stands for the Go
nil-pointer dereference that a nil partition pointer stored in the registry
would cause. -/
inductive InitError : Type where
  | stateConflict (rmID : String) (activePartitions : Nat)
  | notRegistered (rmID : String)
  | configLoad (msg : String)
  | invalidHierarchy (e : CheckError)
  | nilPartition (name : String)
deriving Repr, DecidableEq

/-- Modelled from the spec: `newPartitionInfo` builds a Partition from a
configuration entry (§4.1); the spec gives construction itself no failure mode
of its own (§6 lists only StateConflict, ConfigLoad and InvalidHierarchy), so
this always succeeds.  Go returns `(nil, err)` on failure, which callers embed
as storing `none`. -/
def newPartitionInfo (part : PartitionConfig) (rmID : String) (info : Option ClusterInfo) :
    Except InitError PartitionInfo :=
  .ok { Name := part.Name, Root := part.Queues, state := .active, rmID := rmID }

/-- `newPartitionInfoInternal` (initializer.go lines 153–164): build the
partition, then sanity-check its queue tree; Go's in-place inference on the
tree is embedded by replacing the root with the checked tree. -/
def newPartitionInfoInternal (part : PartitionConfig) (rmID : String)
    (info : Option ClusterInfo) : Except InitError PartitionInfo :=
  match newPartitionInfo part rmID info with
  | .error e => .error e
  | .ok partition =>
    match checkResourceConfigurationsForQueue partition.Root none with
    | .error e => .error (.invalidHierarchy e)
    | .ok root2 => .ok { partition with Root := root2 }

/-- Result of `createPartitionInfos`: the mutated registry, the returned list
and the returned error (`[]*PartitionInfo{}, err` on failure). -/
structure CreateResult where
  clusterInfo : ClusterInfo
  updated : List PartitionInfo
  err : Option InitError
deriving Repr

/-- The loop of `createPartitionInfos` (initializer.go lines 39–50): for each
entry, normalize the name, build and check the partition, and add it to the
registry; on the first failure return the empty list and the error, keeping
the registry as mutated so far. -/
def createPartitionInfosLoop (ci : ClusterInfo) (ps : List PartitionConfig) (rmID : String)
    (acc : List PartitionInfo) : CreateResult :=
  match ps with
  | [] => ⟨ci, acc, none⟩
  | p0 :: rest =>
    let partitionName := GetNormalizedPartitionName p0.Name rmID
    let p := { p0 with Name := partitionName }
    match newPartitionInfoInternal p rmID (some ci) with
    | .error e => ⟨ci, [], some e⟩
    | .ok partition =>
      createPartitionInfosLoop (ci.addPartition partitionName (some partition)) rest rmID
        (acc ++ [partition])

/-- `createPartitionInfos` (initializer.go lines 35–53). -/
def createPartitionInfos (ci : ClusterInfo) (conf : SchedulerConfig) (rmID : String) :
    CreateResult :=
  createPartitionInfosLoop ci conf.Partitions rmID []

/-- Result of `SetClusterInfoFromConfigFile`: the registry, the configuration
registry (`configs.ConfigContext`), the returned list and the error. -/
structure SetResult where
  clusterInfo : ClusterInfo
  configCtx : List (String × SchedulerConfig)
  updated : List PartitionInfo
  err : Option InitError
deriving Repr

/-- `SetClusterInfoFromConfigFile` (initializer.go lines 58–79).  The external
`configs.SchedulerConfigLoader` is passed in as `loader`; `ConfigContext.Set`
is embedded as an update of the threaded configuration registry. -/
def SetClusterInfoFromConfigFile (loader : String → Except String SchedulerConfig)
    (clusterInfo : ClusterInfo) (configCtx : List (String × SchedulerConfig))
    (rmID policyGroup : String) : SetResult :=
  if 0 < clusterInfo.partitions.length then
    ⟨clusterInfo, configCtx, [],
      some (.stateConflict rmID clusterInfo.partitions.length)⟩
  else
    match loader policyGroup with
    | .error msg => ⟨clusterInfo, configCtx, [], some (.configLoad msg)⟩
    | .ok conf =>
      let ctx2 := assocSet configCtx policyGroup conf
      let cr := createPartitionInfos clusterInfo conf rmID
      match cr.err with
      | some e => ⟨cr.clusterInfo, ctx2, [], some e⟩
      | none => ⟨cr.clusterInfo, ctx2, cr.updated, none⟩

/-- Modelled from the spec: `part.updatePartitionDetails(p)` applies the new
configuration entry in place to the existing Partition, replacing its queue
tree (checked, as the candidate was) and keeping its identity (§4.1). -/
def updatePartitionDetails (part : PartitionInfo) (p : PartitionConfig) :
    Except InitError PartitionInfo :=
  match checkResourceConfigurationsForQueue p.Queues none with
  | .error e => .error (.invalidHierarchy e)
  | .ok root2 => .ok { part with Root := root2 }

/-- Modelled from the spec: `part.markPartitionForRemoval()` transitions the
partition to PENDING_REMOVAL; idempotent (§4.1 step 2). -/
def markPartitionForRemoval (part : PartitionInfo) : PartitionInfo :=
  { part with state := .pendingRemoval }

/-- Result of the configuration-walking loop of
`UpdateClusterInfoFromConfigFile`. -/
structure UpdateLoopResult where
  clusterInfo : ClusterInfo
  updated : List PartitionInfo
  visited : List String
  err : Option InitError
deriving Repr

/-- The per-entry loop of `UpdateClusterInfoFromConfigFile` (initializer.go
lines 106–135): an existing partition is candidate-checked and then updated in
place; a missing one is built and added — note the source adds the partition
to the registry *before* checking the build error, so a failed build stores a
nil pointer (`none`) under the normalized name. -/
def updateLoop (ci : ClusterInfo) (ps : List PartitionConfig) (rmID : String)
    (updated : List PartitionInfo) (visited : List String) : UpdateLoopResult :=
  match ps with
  | [] => ⟨ci, updated, visited, none⟩
  | p0 :: rest =>
    let partitionName := GetNormalizedPartitionName p0.Name rmID
    let p := { p0 with Name := partitionName }
    match assocGet ci.partitions p.Name with
    | some partOpt =>
      match newPartitionInfoInternal p rmID none with
      | .error e => ⟨ci, updated, visited, some e⟩
      | .ok _ =>
        match partOpt with
        | none => ⟨ci, updated, visited, some (.nilPartition p.Name)⟩
        | some part =>
          match updatePartitionDetails part p with
          | .error e => ⟨ci, updated, visited, some e⟩
          | .ok part2 =>
            updateLoop (ci.addPartition p.Name (some part2)) rest rmID
              (updated ++ [part2]) (visited ++ [p.Name])
    | none =>
      match newPartitionInfoInternal p rmID (some ci) with
      | .error e => ⟨ci.addPartition partitionName none, updated, visited, some e⟩
      | .ok part =>
        updateLoop (ci.addPartition partitionName (some part)) rest rmID
          (updated ++ [part]) (visited ++ [p.Name])

/-- The removal-marking loop of `UpdateClusterInfoFromConfigFile`
(initializer.go lines 138–146): every registry partition whose name was not
visited is marked for removal in place and collected.  A nil partition pointer
would make Go dereference nil (`part.Name`), embedded as `nilPartition`. -/
def markRemovals (entries : List (String × Option PartitionInfo)) (visited : List String) :
    Except InitError (List (String × Option PartitionInfo) × List PartitionInfo) :=
  match entries with
  | [] => .ok ([], [])
  | (k, none) :: _ => .error (.nilPartition k)
  | (k, some part) :: rest =>
    match markRemovals rest visited with
    | .error e => .error e
    | .ok (rest2, dels) =>
      if visited.contains part.Name then .ok ((k, some part) :: rest2, dels)
      else .ok ((k, some (markPartitionForRemoval part)) :: rest2,
        markPartitionForRemoval part :: dels)

/-- Result of `UpdateClusterInfoFromConfigFile`: registry, configuration
registry, the two returned lists, and the returned error. -/
structure UpdateResult where
  clusterInfo : ClusterInfo
  configCtx : List (String × SchedulerConfig)
  updated : List PartitionInfo
  deleted : List PartitionInfo
  err : Option InitError
deriving Repr

/-- `UpdateClusterInfoFromConfigFile` (initializer.go lines 86–149). -/
def UpdateClusterInfoFromConfigFile (loader : String → Except String SchedulerConfig)
    (clusterInfo : ClusterInfo) (configCtx : List (String × SchedulerConfig))
    (rmID : String) : UpdateResult :=
  if clusterInfo.partitions.length = 0 then
    ⟨clusterInfo, configCtx, [], [], some (.notRegistered rmID)⟩
  else
    match loader clusterInfo.policyGroup with
    | .error msg => ⟨clusterInfo, configCtx, [], [], some (.configLoad msg)⟩
    | .ok conf =>
      let ctx2 := assocSet configCtx clusterInfo.policyGroup conf
      let lr := updateLoop clusterInfo conf.Partitions rmID [] []
      match lr.err with
      | some e => ⟨lr.clusterInfo, ctx2, [], [], some e⟩
      | none =>
        match markRemovals lr.clusterInfo.partitions lr.visited with
        | .error e => ⟨lr.clusterInfo, ctx2, [], [], some e⟩
        | .ok (entries2, dels) =>
          ⟨{ lr.clusterInfo with partitions := entries2 }, ctx2, lr.updated, dels, none⟩

/-! ### Concrete sample inputs (used by witnesses and counterexamples) -/

/-- Root with declared guaranteed memory 100 and two leaves with guaranteed
40 and 50 (the spec's §8 concrete scenario). -/
def sampleMemTree : QueueInfo :=
  .node "root" (some ⟨[("memory", 100)]⟩) none
    [.node "a" (some ⟨[("memory", 40)]⟩) none [],
     .node "b" (some ⟨[("memory", 50)]⟩) none []]

/-- A leaf whose declared maximum is below its declared guarantee. -/
def sampleMaxLeaf : QueueInfo :=
  .node "q" (some ⟨[("m", 5)]⟩) (some ⟨[("m", 3)]⟩) []

/-- Root with no declared guarantee and two leaves with cpu 2 and 3 (the
spec's §8 concrete scenario). -/
def sampleCpuTree : QueueInfo :=
  .node "root" none none
    [.node "x" (some ⟨[("cpu", 2)]⟩) none [],
     .node "y" (some ⟨[("cpu", 3)]⟩) none []]

/-- `sampleCpuTree` after validation: the root's guarantee is inferred. -/
def sampleCpuTreeChecked : QueueInfo :=
  .node "root" (some ⟨[("cpu", 5)]⟩) none
    [.node "x" (some ⟨[("cpu", 2)]⟩) none [],
     .node "y" (some ⟨[("cpu", 3)]⟩) none []]

/-- A valid partition as stored in a registry. -/
def samplePartition0 : PartitionInfo :=
  ⟨"[rm]p0", .node "root" (some ⟨[]⟩) none [], .active, "rm"⟩

/-- A registry holding the single partition `[rm]p0`. -/
def sampleRegistry1 : ClusterInfo :=
  ⟨[("[rm]p0", some samplePartition0)], "pg"⟩

/-- A tree that fails validation: declared guarantee m=1 below the child sum
m=2. -/
def sampleBadTree : QueueInfo :=
  .node "root" (some ⟨[("m", 1)]⟩) none [.node "c" (some ⟨[("m", 2)]⟩) none []]

/-- A configuration with a single invalid partition entry. -/
def sampleBadConf : SchedulerConfig := ⟨[⟨"bad", sampleBadTree⟩]⟩

/-- A configuration updating `p0` and adding an invalid new partition
`pbad`. -/
def sampleUpdateBadConf : SchedulerConfig :=
  ⟨[⟨"p0", .node "root" (some ⟨[]⟩) none []⟩, ⟨"pbad", sampleBadTree⟩]⟩

/-- A partition `[rm]p1` whose root declares guaranteed m=1. -/
def samplePartition1 : PartitionInfo :=
  ⟨"[rm]p1", .node "root" (some ⟨[("m", 1)]⟩) none [], .active, "rm"⟩

/-- A partition `[rm]p2` with an empty guarantee. -/
def samplePartition2 : PartitionInfo :=
  ⟨"[rm]p2", .node "root" (some ⟨[]⟩) none [], .active, "rm"⟩

/-- A registry holding `[rm]p1` and `[rm]p2`. -/
def sampleRegistry2 : ClusterInfo :=
  ⟨[("[rm]p1", some samplePartition1), ("[rm]p2", some samplePartition2)], "pg"⟩

/-- A configuration that changes `p1`'s guarantee to m=2 and makes `p2`
invalid. -/
def sampleC4Conf : SchedulerConfig :=
  ⟨[⟨"p1", .node "root" (some ⟨[("m", 2)]⟩) none []⟩, ⟨"p2", sampleBadTree⟩]⟩

/-- `samplePartition1` after the `sampleC4Conf` update was applied to it. -/
def sampleP1Updated : PartitionInfo :=
  ⟨"[rm]p1", .node "root" (some ⟨[("m", 2)]⟩) none [], .active, "rm"⟩

/-- `sampleRegistry2` after `p1` was updated and before `p2` failed. -/
def sampleRegistry2Updated : ClusterInfo :=
  ⟨[("[rm]p1", some sampleP1Updated), ("[rm]p2", some samplePartition2)], "pg"⟩

/-- The validation error produced by `sampleBadTree`. -/
def sampleHierarchyError : InitError :=
  .invalidHierarchy (.guaranteedBelowChildren "root" ⟨[("m", 1)]⟩ ⟨[("m", 2)]⟩)

/-- A bootstrap configuration with a valid `p1` followed by an invalid
entry. -/
def sampleC5Conf : SchedulerConfig :=
  ⟨[⟨"p1", .node "root" (some ⟨[]⟩) none []⟩, ⟨"bad", sampleBadTree⟩]⟩

/-- The partition built from `sampleC5Conf`'s first entry. -/
def sampleC5P1 : PartitionInfo :=
  ⟨"[rm]p1", .node "root" (some ⟨[]⟩) none [], .active, "rm"⟩

/-- The registry committed by `sampleC5Conf`'s first entry. -/
def sampleC5Registry : ClusterInfo := ⟨[("[rm]p1", some sampleC5P1)], "pg"⟩

/-- A registry entry is healthy when it stores a non-nil partition whose
`Name` equals its key. -/
def entryOk : String × Option PartitionInfo → Bool
  | (k, some part) => decide (part.Name = k)
  | (_, none) => false

/-- A registry is well formed when every entry is healthy. -/
def registryWellFormed (ci : ClusterInfo) : Bool :=
  ci.partitions.all entryOk

/-- The normalized names of a list of configuration entries. -/
def normalizedNames (ps : List PartitionConfig) (rmID : String) : List String :=
  ps.map (fun p => GetNormalizedPartitionName p.Name rmID)

/-- The registry already reflects configuration entry `p`: the normalized name
maps to a partition whose root is exactly the checked tree built from `p`. -/
def partitionSynced (ci : ClusterInfo) (rmID : String) (p : PartitionConfig) : Prop :=
  ∃ part root2,
    assocGet ci.partitions (GetNormalizedPartitionName p.Name rmID) = some (some part) ∧
    part.Name = GetNormalizedPartitionName p.Name rmID ∧
    checkResourceConfigurationsForQueue p.Queues none = .ok root2 ∧
    part.Root = root2

/-- A configuration that keeps `p1` as it is and omits `p2`. -/
def sampleC8Conf : SchedulerConfig :=
  ⟨[⟨"p1", .node "root" (some ⟨[("m", 1)]⟩) none []⟩]⟩

/-- What the removal-marking loop does to one stored partition: marked for
removal unless its name was visited. -/
def markIfVisited (vis : List String) (part : PartitionInfo) : PartitionInfo :=
  if vis.contains part.Name then part else markPartitionForRemoval part

/-- The registry entries after the removal-marking loop. -/
def removalMarkEntries (entries : List (String × Option PartitionInfo)) (vis : List String) :
    List (String × Option PartitionInfo) :=
  entries.map (fun kv => (kv.1, kv.2.map (markIfVisited vis)))

/-- The deletions list collected by the removal-marking loop. -/
def removalDeletions (entries : List (String × Option PartitionInfo)) (vis : List String) :
    List PartitionInfo :=
  entries.filterMap (fun kv => kv.2.bind (fun part =>
    if vis.contains part.Name then none else some (markPartitionForRemoval part)))

/-! ### General lemmas -/

theorem FitIn_refl (r : Resource) : FitIn r r = true := by
  simp [FitIn]

/-- The validator is its guaranteed section followed by its max section. -/
theorem check_phase_split (cur : QueueInfo) (parent : Option QueueInfo) :
    checkResourceConfigurationsForQueue cur parent =
      match checkGuaranteed cur with
      | .error e => .error e
      | .ok cur2 => checkMax cur2 parent := by
  cases cur with
  | node name g m cs => rfl

theorem checkMax_ok_eq (cur : QueueInfo) (parent : Option QueueInfo) (q' : QueueInfo)
    (h : checkMax cur parent = .ok q') : q' = cur := by
  unfold checkMax at h
  repeat' split at h
  all_goals simp_all

mutual

theorem check_subtrees_guarantee : ∀ (q : QueueInfo) (parent : Option QueueInfo) (q' : QueueInfo),
    checkResourceConfigurationsForQueue q parent = .ok q' →
    ∀ t ∈ q'.subtrees, t.children ≠ [] → guaranteeSumOk t = true
  | .node name g m cs, parent, q', h => by
    rw [check_phase_split] at h
    cases hg : checkGuaranteed (.node name g m cs) with
    | error e => rw [hg] at h; exact absurd h (by simp)
    | ok c2 =>
      rw [hg] at h
      have hq : q' = c2 := checkMax_ok_eq _ _ _ h
      subst hq
      cases cs with
      | nil =>
        cases g with
        | none =>
          injection hg with h2
          subst h2
          intro t ht hne
          simp only [QueueInfo.subtrees, subtreesList, List.mem_singleton] at ht
          subst ht
          exact absurd rfl hne
        | some gr =>
          injection hg with h2
          subst h2
          intro t ht hne
          simp only [QueueInfo.subtrees, subtreesList, List.mem_singleton] at ht
          subst ht
          exact absurd rfl hne
      | cons c0 crest =>
        simp only [checkGuaranteed, List.length_cons] at hg
        rw [if_pos (Nat.succ_pos _)] at hg
        cases hcc : checkChildren (c0 :: crest) (QueueInfo.node name g m (c0 :: crest)) with
        | error e => rw [hcc] at hg; exact absurd hg (by simp)
        | ok cs2 =>
          rw [hcc] at hg
          dsimp only at hg
          cases g with
          | some gr =>
            dsimp only at hg
            by_cases hfit : FitIn gr (sumGuaranteed cs2) = true
            · rw [if_pos hfit] at hg
              injection hg with h2
              subst h2
              intro t ht hne
              simp only [QueueInfo.subtrees] at ht
              rcases List.mem_cons.mp ht with rfl | ht2
              · simp [guaranteeSumOk, QueueInfo.guaranteedResource, QueueInfo.children, hfit]
              · exact checkChildren_subtrees_guarantee (c0 :: crest) _ cs2 hcc t ht2 hne
            · rw [if_neg hfit] at hg
              exact absurd hg (by simp)
          | none =>
            dsimp only at hg
            injection hg with h2
            subst h2
            intro t ht hne
            simp only [QueueInfo.subtrees] at ht
            rcases List.mem_cons.mp ht with rfl | ht2
            · simp [guaranteeSumOk, QueueInfo.guaranteedResource, QueueInfo.children, FitIn_refl]
            · exact checkChildren_subtrees_guarantee (c0 :: crest) _ cs2 hcc t ht2 hne

theorem checkChildren_subtrees_guarantee : ∀ (cs : List QueueInfo) (pn : QueueInfo)
    (cs' : List QueueInfo), checkChildren cs pn = .ok cs' →
    ∀ t ∈ subtreesList cs', t.children ≠ [] → guaranteeSumOk t = true
  | [], pn, cs', h => by
    simp only [checkChildren, Except.ok.injEq] at h
    subst h
    intro t ht
    simp [subtreesList] at ht
  | c :: rest, pn, cs', h => by
    simp only [checkChildren] at h
    cases hc : checkResourceConfigurationsForQueue c (some pn) with
    | error e => rw [hc] at h; exact absurd h (by simp)
    | ok c2 =>
      rw [hc] at h
      cases hr : checkChildren rest pn with
      | error e => rw [hr] at h; exact absurd h (by simp)
      | ok rest2 =>
        rw [hr] at h
        simp only [Except.ok.injEq] at h
        subst h
        intro t ht hne
        simp only [subtreesList, List.mem_append] at ht
        rcases ht with ht | ht
        · exact check_subtrees_guarantee c (some pn) c2 hc t ht hne
        · exact checkChildren_subtrees_guarantee rest pn rest2 hr t ht hne

end

theorem check_ok_guaranteed (cur : QueueInfo) (parent : Option QueueInfo) (q' : QueueInfo)
    (h : checkResourceConfigurationsForQueue cur parent = .ok q') :
    checkGuaranteed cur = .ok q' := by
  rw [check_phase_split] at h
  cases hg : checkGuaranteed cur with
  | error e => rw [hg] at h; exact absurd h (by simp)
  | ok c2 =>
    rw [hg] at h
    dsimp only at h
    have hq := checkMax_ok_eq _ _ _ h
    subst hq
    rfl

theorem checkGuaranteed_ok_node (n : String) (g m : Option Resource) (cs : List QueueInfo)
    (q' : QueueInfo) (h : checkGuaranteed (.node n g m cs) = .ok q') :
    ∃ gg cs2, q' = .node n (some gg) m cs2 := by
  cases cs with
  | nil =>
    cases g with
    | none => injection h with h2; exact ⟨_, _, h2.symm⟩
    | some gr => injection h with h2; exact ⟨_, _, h2.symm⟩
  | cons c0 crest =>
    simp only [checkGuaranteed, List.length_cons] at h
    rw [if_pos (Nat.succ_pos _)] at h
    cases hcc : checkChildren (c0 :: crest) (.node n g m (c0 :: crest)) with
    | error e => rw [hcc] at h; exact absurd h (by simp)
    | ok cs2 =>
      rw [hcc] at h
      dsimp only at h
      cases g with
      | some gr =>
        dsimp only at h
        by_cases hfit : FitIn gr (sumGuaranteed cs2) = true
        · rw [if_pos hfit] at h; injection h with h2; exact ⟨_, _, h2.symm⟩
        · rw [if_neg hfit] at h; exact absurd h (by simp)
      | none => dsimp only at h; injection h with h2; exact ⟨_, _, h2.symm⟩

/-- C1: for every queue tree on which the hierarchy validator succeeds, every
node of the resulting tree with at least one child has a set guaranteed vector
within which the elementwise sum of its children's guaranteed vectors fits —
whether that vector was declared or inferred as the sum itself. -/
theorem validated_tree_guarantee_sum (q q' : QueueInfo)
    (h : checkResourceConfigurationsForQueue q none = .ok q') :
    ∀ t ∈ q'.subtrees, t.children ≠ [] → guaranteeSumOk t = true :=
  check_subtrees_guarantee q none q' h

theorem validated_tree_guarantee_sum_witness :
    checkResourceConfigurationsForQueue sampleMemTree none = .ok sampleMemTree ∧
      guaranteeSumOk sampleMemTree = true :=
  ⟨rfl, validated_tree_guarantee_sum sampleMemTree sampleMemTree rfl sampleMemTree
    (by simp [sampleMemTree, QueueInfo.subtrees]) (by simp [sampleMemTree, QueueInfo.children])⟩

/-- C2: at a node whose guaranteed section succeeded, when the node's maximum
vector is set, validation fails exactly when the parent exists with a set
maximum the node's maximum does not fit within, or the node's (declared or
inferred) guaranteed vector does not fit within the node's maximum; when the
node's maximum is unset, no maximum-related check is performed and validation
succeeds at that node. -/
theorem max_check_exact_conditions (cur cur' : QueueInfo) (parent : Option QueueInfo)
    (h : checkGuaranteed cur = .ok cur') :
    (cur.maxResource = none → checkResourceConfigurationsForQueue cur parent = .ok cur') ∧
    (∀ mr, cur.maxResource = some mr →
      ((∃ e, checkResourceConfigurationsForQueue cur parent = .error e) ↔
        ((∃ par pm, parent = some par ∧ par.maxResource = some pm ∧ FitIn pm mr = false) ∨
          ∃ g, cur'.guaranteedResource = some g ∧ FitIn mr g = false))) := by
  have hsplit := check_phase_split cur parent
  rw [h] at hsplit
  dsimp only at hsplit
  cases cur with
  | node n g m cs =>
    obtain ⟨gg, cs2, rfl⟩ := checkGuaranteed_ok_node n g m cs cur' h
    constructor
    · intro hm
      simp only [QueueInfo.maxResource] at hm
      subst hm
      rw [hsplit]
      rfl
    · intro mr hm
      simp only [QueueInfo.maxResource] at hm
      subst hm
      rw [hsplit]
      cases parent with
      | none =>
        dsimp only [checkMax, QueueInfo.maxResource, QueueInfo.guaranteedResource,
          QueueInfo.Name, Option.getD]
        rcases Bool.eq_false_or_eq_true (FitIn mr gg) with hf | hf <;> simp [hf]
      | some par =>
        cases par with
        | node pn pg pmax pcs =>
          cases pmax with
          | none =>
            dsimp only [checkMax, QueueInfo.maxResource, QueueInfo.guaranteedResource,
              QueueInfo.Name, Option.getD]
            rcases Bool.eq_false_or_eq_true (FitIn mr gg) with hf | hf <;>
              simp [hf, QueueInfo.maxResource]
          | some pm =>
            dsimp only [checkMax, QueueInfo.maxResource, QueueInfo.guaranteedResource,
              QueueInfo.Name, Option.getD]
            rcases Bool.eq_false_or_eq_true (FitIn pm mr) with hp | hp <;>
              rcases Bool.eq_false_or_eq_true (FitIn mr gg) with hf | hf <;>
                simp [hp, hf, QueueInfo.maxResource]

theorem max_check_exact_conditions_witness :
    checkGuaranteed sampleMaxLeaf = .ok sampleMaxLeaf ∧
      ((∃ e, checkResourceConfigurationsForQueue sampleMaxLeaf none = .error e) ↔
        ((∃ par pm, (none : Option QueueInfo) = some par ∧ par.maxResource = some pm ∧
            FitIn pm (⟨[("m", 3)]⟩ : Resource) = false) ∨
          ∃ g, sampleMaxLeaf.guaranteedResource = some g ∧
            FitIn (⟨[("m", 3)]⟩ : Resource) g = false)) :=
  ⟨rfl, (max_check_exact_conditions sampleMaxLeaf sampleMaxLeaf none rfl).2 ⟨[("m", 3)]⟩ rfl⟩

/-- C7: a node with no declared guarantee that validates successfully gets its
guaranteed vector set — to its children's sum when it has children, to the
zero vector when it is a leaf; a leaf with no declared guarantee passes the
guaranteed section successfully with the zero vector rather than being
rejected. -/
theorem unset_guaranteed_inferred (cur cur' : QueueInfo) (parent : Option QueueInfo)
    (hg : cur.guaranteedResource = none)
    (h : checkResourceConfigurationsForQueue cur parent = .ok cur') :
    (cur.children ≠ [] → cur'.guaranteedResource = some (sumGuaranteed cur'.children)) ∧
    (cur.children = [] → cur'.guaranteedResource = some ⟨[]⟩) ∧
    (∀ nm mx, checkGuaranteed (.node nm none mx []) = .ok (.node nm (some ⟨[]⟩) mx [])) := by
  have h2 := check_ok_guaranteed cur parent cur' h
  cases cur with
  | node n g m cs =>
    simp only [QueueInfo.guaranteedResource] at hg
    subst hg
    refine ⟨?_, ?_, fun nm mx => rfl⟩
    · intro hne
      simp only [QueueInfo.children] at hne
      cases cs with
      | nil => exact absurd rfl hne
      | cons c0 crest =>
        simp only [checkGuaranteed, List.length_cons] at h2
        rw [if_pos (Nat.succ_pos _)] at h2
        cases hcc : checkChildren (c0 :: crest) (.node n none m (c0 :: crest)) with
        | error e => rw [hcc] at h2; exact absurd h2 (by simp)
        | ok cs2 =>
          rw [hcc] at h2
          dsimp only at h2
          injection h2 with h3
          subst h3
          rfl
    · intro hnil
      simp only [QueueInfo.children] at hnil
      subst hnil
      injection h2 with h3
      subst h3
      rfl

theorem unset_guaranteed_inferred_witness :
    checkResourceConfigurationsForQueue sampleCpuTree none = .ok sampleCpuTreeChecked ∧
      sampleCpuTreeChecked.guaranteedResource =
        some (sumGuaranteed sampleCpuTreeChecked.children) :=
  ⟨rfl, (unset_guaranteed_inferred sampleCpuTree sampleCpuTreeChecked none rfl rfl).1
    (by simp [sampleCpuTree, QueueInfo.children])⟩

/-- C6: bootstrap on a registry that already holds at least one partition
fails with the state-conflict error and has no side effects at all — the
registry and the configuration registry are returned unchanged and the result
does not depend on the loader, which is therefore never consulted. -/
theorem bootstrap_requires_empty_registry (loader : String → Except String SchedulerConfig)
    (ci : ClusterInfo) (ctx : List (String × SchedulerConfig)) (rmID policyGroup : String)
    (h : ci.partitions ≠ []) :
    SetClusterInfoFromConfigFile loader ci ctx rmID policyGroup =
      ⟨ci, ctx, [], some (.stateConflict rmID ci.partitions.length)⟩ := by
  unfold SetClusterInfoFromConfigFile
  rw [if_pos (List.length_pos.mpr h)]

theorem bootstrap_requires_empty_registry_witness :
    sampleRegistry1.partitions ≠ [] ∧
      SetClusterInfoFromConfigFile (fun _ => .error "loader consulted") sampleRegistry1 []
          "rm" "pg" =
        ⟨sampleRegistry1, [], [], some (.stateConflict "rm" 1)⟩ :=
  ⟨by simp [sampleRegistry1],
    bootstrap_requires_empty_registry _ sampleRegistry1 [] "rm" "pg"
      (by simp [sampleRegistry1])⟩

theorem assocGet_assocSet {α : Type} (l : List (String × α)) (k : String) (v : α) :
    assocGet (assocSet l k v) k = some v := by
  induction l with
  | nil => simp [assocSet, assocGet]
  | cons p rest ih =>
    obtain ⟨k1, v1⟩ := p
    by_cases hk : k1 = k
    · subst hk; simp [assocSet, assocGet]
    · simp [assocSet, assocGet, hk, ih]

/-- C10: both bootstrap and reconcile publish the loaded configuration into
the configuration registry before any partition is built or validated: as soon
as the precondition holds and the loader succeeds, the returned configuration
registry maps the policy group to the new configuration — whether or not a
later validation failed the call. -/
theorem config_published_even_on_failure (loader : String → Except String SchedulerConfig)
    (ci : ClusterInfo) (ctx : List (String × SchedulerConfig)) (rmID policyGroup : String)
    (conf : SchedulerConfig) :
    (ci.partitions = [] → loader policyGroup = .ok conf →
      assocGet (SetClusterInfoFromConfigFile loader ci ctx rmID policyGroup).configCtx
          policyGroup =
        some conf) ∧
    (ci.partitions ≠ [] → loader ci.policyGroup = .ok conf →
      assocGet (UpdateClusterInfoFromConfigFile loader ci ctx rmID).configCtx
          ci.policyGroup =
        some conf) := by
  constructor
  · intro hempty hload
    unfold SetClusterInfoFromConfigFile
    rw [if_neg (by simp [hempty])]
    rw [hload]
    dsimp only
    cases hcr : (createPartitionInfos ci conf rmID).err with
    | some e => exact assocGet_assocSet ctx policyGroup conf
    | none => exact assocGet_assocSet ctx policyGroup conf
  · intro hne hload
    unfold UpdateClusterInfoFromConfigFile
    rw [if_neg (by simp [hne])]
    rw [hload]
    dsimp only
    cases hlr : (updateLoop ci conf.Partitions rmID [] []).err with
    | some e => exact assocGet_assocSet ctx ci.policyGroup conf
    | none =>
      cases hmr : markRemovals (updateLoop ci conf.Partitions rmID [] []).clusterInfo.partitions
          (updateLoop ci conf.Partitions rmID [] []).visited with
      | error e => exact assocGet_assocSet ctx ci.policyGroup conf
      | ok pr =>
        obtain ⟨entries2, dels⟩ := pr
        exact assocGet_assocSet ctx ci.policyGroup conf

theorem config_published_even_on_failure_witness :
    (⟨[], "pg"⟩ : ClusterInfo).partitions = [] ∧
      (SetClusterInfoFromConfigFile (fun _ => .ok sampleBadConf) ⟨[], "pg"⟩ [] "rm" "pg").err.isSome
          = true ∧
      assocGet (SetClusterInfoFromConfigFile (fun _ => .ok sampleBadConf) ⟨[], "pg"⟩ []
          "rm" "pg").configCtx "pg" =
        some sampleBadConf :=
  ⟨rfl, rfl,
    (config_published_even_on_failure (fun _ => .ok sampleBadConf) ⟨[], "pg"⟩ [] "rm" "pg"
      sampleBadConf).1 rfl rfl⟩

/-- C3 is violated by the code: in the new-partition branch of
`UpdateClusterInfoFromConfigFile` the partition is added to the registry
*before* the build error is checked (initializer.go lines 126–130), so when
validation of the fresh partition fails the registry gains the normalized name
mapped to a nil pointer, and only then is the error returned.  Here: the name
`[rm]pbad` is absent before the call, the call fails, and afterwards the name
is present and maps to `none`. -/
theorem update_inserts_nil_partition_on_failed_validation :
    assocGet sampleRegistry1.partitions "[rm]pbad" = none ∧
      (UpdateClusterInfoFromConfigFile (fun _ => .ok sampleUpdateBadConf) sampleRegistry1 []
          "rm").err.isSome = true ∧
      assocGet (UpdateClusterInfoFromConfigFile (fun _ => .ok sampleUpdateBadConf)
          sampleRegistry1 [] "rm").clusterInfo.partitions "[rm]pbad" =
        some none :=
  ⟨rfl, rfl, rfl⟩

/-! ### Composition lemmas for the two per-entry loops -/

theorem createLoop_append_ok (xs ys : List PartitionConfig) (ci ci1 : ClusterInfo)
    (rmID : String) (acc ups1 : List PartitionInfo)
    (h : createPartitionInfosLoop ci xs rmID acc = ⟨ci1, ups1, none⟩) :
    createPartitionInfosLoop ci (xs ++ ys) rmID acc =
      createPartitionInfosLoop ci1 ys rmID ups1 := by
  induction xs generalizing ci acc with
  | nil =>
    simp only [createPartitionInfosLoop, CreateResult.mk.injEq] at h
    obtain ⟨h1, h2, -⟩ := h
    subst h1
    subst h2
    simp
  | cons p0 rest ih =>
    unfold createPartitionInfosLoop at h
    dsimp only at h
    simp only [List.cons_append]
    conv_lhs => unfold createPartitionInfosLoop
    dsimp only
    cases hn : newPartitionInfoInternal { p0 with Name := GetNormalizedPartitionName p0.Name rmID }
        rmID (some ci) with
    | error e0 => rw [hn] at h; exact absurd h (by simp)
    | ok part =>
      rw [hn] at h
      dsimp only at h ⊢
      exact ih _ _ h

theorem updateLoop_append_ok (xs ys : List PartitionConfig) (ci ci1 : ClusterInfo)
    (rmID : String) (ups ups1 : List PartitionInfo) (vis vis1 : List String)
    (h : updateLoop ci xs rmID ups vis = ⟨ci1, ups1, vis1, none⟩) :
    updateLoop ci (xs ++ ys) rmID ups vis = updateLoop ci1 ys rmID ups1 vis1 := by
  induction xs generalizing ci ups vis with
  | nil =>
    simp only [updateLoop, UpdateLoopResult.mk.injEq] at h
    obtain ⟨h1, h2, h3, -⟩ := h
    subst h1
    subst h2
    subst h3
    simp
  | cons p0 rest ih =>
    unfold updateLoop at h
    dsimp only at h
    simp only [List.cons_append]
    conv_lhs => unfold updateLoop
    dsimp only
    cases hg : assocGet ci.partitions (GetNormalizedPartitionName p0.Name rmID) with
    | some partOpt =>
      rw [hg] at h
      dsimp only at h ⊢
      cases hn : newPartitionInfoInternal
          { p0 with Name := GetNormalizedPartitionName p0.Name rmID } rmID none with
      | error e0 => rw [hn] at h; exact absurd h (by simp)
      | ok pnew =>
        rw [hn] at h
        dsimp only at h ⊢
        cases partOpt with
        | none => exact absurd h (by simp)
        | some part =>
          dsimp only at h ⊢
          cases hu : updatePartitionDetails part
              { p0 with Name := GetNormalizedPartitionName p0.Name rmID } with
          | error e0 => rw [hu] at h; exact absurd h (by simp)
          | ok part2 =>
            rw [hu] at h
            dsimp only at h ⊢
            exact ih _ _ _ h
    | none =>
      rw [hg] at h
      dsimp only at h ⊢
      cases hn : newPartitionInfoInternal
          { p0 with Name := GetNormalizedPartitionName p0.Name rmID } rmID (some ci) with
      | error e0 => rw [hn] at h; exact absurd h (by simp)
      | ok part =>
        rw [hn] at h
        dsimp only at h ⊢
        exact ih _ _ _ h

theorem updateLoop_single_err (p0 : PartitionConfig) (ys : List PartitionConfig)
    (ci : ClusterInfo) (rmID : String) (ups : List PartitionInfo) (vis : List String)
    (r : UpdateLoopResult) (h : updateLoop ci [p0] rmID ups vis = r)
    (herr : r.err.isSome = true) :
    updateLoop ci (p0 :: ys) rmID ups vis = r := by
  unfold updateLoop at h
  dsimp only at h
  conv_lhs => unfold updateLoop
  dsimp only
  cases hg : assocGet ci.partitions (GetNormalizedPartitionName p0.Name rmID) with
  | some partOpt =>
    rw [hg] at h
    dsimp only at h ⊢
    cases hn : newPartitionInfoInternal
        { p0 with Name := GetNormalizedPartitionName p0.Name rmID } rmID none with
    | error e0 => rw [hn] at h; dsimp only at h ⊢; exact h
    | ok pnew =>
      rw [hn] at h
      dsimp only at h ⊢
      cases partOpt with
      | none => exact h
      | some part =>
        dsimp only at h ⊢
        cases hu : updatePartitionDetails part
            { p0 with Name := GetNormalizedPartitionName p0.Name rmID } with
        | error e0 => rw [hu] at h; dsimp only at h ⊢; exact h
        | ok part2 =>
          rw [hu] at h
          dsimp only at h
          simp only [updateLoop] at h
          subst h
          simp at herr
  | none =>
    rw [hg] at h
    dsimp only at h ⊢
    cases hn : newPartitionInfoInternal
        { p0 with Name := GetNormalizedPartitionName p0.Name rmID } rmID (some ci) with
    | error e0 => rw [hn] at h; dsimp only at h ⊢; exact h
    | ok part =>
      rw [hn] at h
      dsimp only at h
      simp only [updateLoop] at h
      subst h
      simp at herr

/-- C4 fails on the code as stated: a validation failure on the candidate
tree of an existing partition aborts the call, but partitions processed
earlier in the same call keep their already-applied updates, so the registry
is *not* exactly as it was before the call.  Concretely: updating `p1`
(guarantee m=1 → m=2) succeeds, then `p2`'s candidate fails; the returned
error is set and `[rm]p1`'s stored partition has changed content. -/
theorem update_failure_mutates_registry :
    (UpdateClusterInfoFromConfigFile (fun _ => .ok sampleC4Conf) sampleRegistry2 []
        "rm").err.isSome = true ∧
      assocGet sampleRegistry2.partitions "[rm]p1" = some (some samplePartition1) ∧
      assocGet (UpdateClusterInfoFromConfigFile (fun _ => .ok sampleC4Conf) sampleRegistry2 []
          "rm").clusterInfo.partitions "[rm]p1" = some (some sampleP1Updated) ∧
      samplePartition1.Root.guaranteedResource ≠ sampleP1Updated.Root.guaranteedResource :=
  ⟨rfl, rfl, rfl, by decide⟩

/-- C4 (amended): when reconciliation hits a validation failure on the
candidate tree of an already-existing partition, it returns the error and
empty lists, and the registry is exactly the state reached just before the
failing entry: entries processed earlier in the same call keep their applied
updates, the failing partition itself is untouched, and nothing is removed. -/
theorem update_failure_keeps_earlier_updates
    (loader : String → Except String SchedulerConfig) (ci : ClusterInfo)
    (ctx : List (String × SchedulerConfig)) (rmID : String) (conf : SchedulerConfig)
    (xs ys : List PartitionConfig) (p0 : PartitionConfig) (ci1 : ClusterInfo)
    (ups1 : List PartitionInfo) (vis1 : List String) (partOpt : Option PartitionInfo)
    (e : InitError)
    (hne : ci.partitions ≠ []) (hload : loader ci.policyGroup = .ok conf)
    (hconf : conf.Partitions = xs ++ p0 :: ys)
    (hpre : updateLoop ci xs rmID [] [] = ⟨ci1, ups1, vis1, none⟩)
    (hexist : assocGet ci1.partitions (GetNormalizedPartitionName p0.Name rmID) = some partOpt)
    (hfail : newPartitionInfoInternal
      { p0 with Name := GetNormalizedPartitionName p0.Name rmID } rmID none = .error e) :
    UpdateClusterInfoFromConfigFile loader ci ctx rmID =
      ⟨ci1, assocSet ctx ci.policyGroup conf, [], [], some e⟩ := by
  have hstep : updateLoop ci1 (p0 :: ys) rmID ups1 vis1 = ⟨ci1, ups1, vis1, some e⟩ := by
    unfold updateLoop
    dsimp only
    rw [hexist]
    dsimp only
    rw [hfail]
  unfold UpdateClusterInfoFromConfigFile
  rw [if_neg (by simp [hne]), hload]
  dsimp only
  rw [hconf, updateLoop_append_ok xs (p0 :: ys) ci ci1 rmID [] ups1 [] vis1 hpre, hstep]

theorem update_failure_keeps_earlier_updates_witness :
    UpdateClusterInfoFromConfigFile (fun _ => .ok sampleC4Conf) sampleRegistry2 [] "rm" =
      ⟨sampleRegistry2Updated, assocSet [] "pg" sampleC4Conf, [], [],
        some sampleHierarchyError⟩ :=
  update_failure_keeps_earlier_updates (fun _ => .ok sampleC4Conf) sampleRegistry2 [] "rm"
    sampleC4Conf [⟨"p1", .node "root" (some ⟨[("m", 2)]⟩) none []⟩] []
    ⟨"p2", sampleBadTree⟩ sampleRegistry2Updated [sampleP1Updated] ["[rm]p1"]
    (some samplePartition2) sampleHierarchyError
    (by simp [sampleRegistry2]) rfl rfl rfl rfl rfl

/-- C5 fails on the code as stated: when bootstrap fails on the second entry,
the partition committed for the first entry remains in the registry, but the
list returned alongside the error is empty — it does not contain the
partitions committed before the failure. -/
theorem failed_bootstrap_returns_empty_list :
    (SetClusterInfoFromConfigFile (fun _ => .ok sampleC5Conf) ⟨[], "pg"⟩ [] "rm"
        "pg").err.isSome = true ∧
      (assocGet (SetClusterInfoFromConfigFile (fun _ => .ok sampleC5Conf) ⟨[], "pg"⟩ [] "rm"
          "pg").clusterInfo.partitions "[rm]p1").isSome = true ∧
      (SetClusterInfoFromConfigFile (fun _ => .ok sampleC5Conf) ⟨[], "pg"⟩ [] "rm"
          "pg").updated = [] :=
  ⟨rfl, rfl, rfl⟩

/-- C5 (amended): when bootstrap or reconciliation fails while processing the
Nth entry, partitions committed for earlier entries in the same call remain
committed — the final registry is exactly the state reached at the failure —
but the lists returned alongside the error are empty, not the lists of
partitions committed before the failure. -/
theorem failure_keeps_commits_but_returns_empty_lists
    (loader : String → Except String SchedulerConfig) (ci : ClusterInfo)
    (ctx : List (String × SchedulerConfig)) (rmID policyGroup : String)
    (conf : SchedulerConfig) (xs ys : List PartitionConfig) (p0 : PartitionConfig)
    (ci1 : ClusterInfo) (ups1 : List PartitionInfo) (vis1 : List String)
    (r : UpdateLoopResult) (e : InitError) :
    (ci.partitions = [] → loader policyGroup = .ok conf →
      conf.Partitions = xs ++ p0 :: ys →
      createPartitionInfosLoop ci xs rmID [] = ⟨ci1, ups1, none⟩ →
      newPartitionInfoInternal { p0 with Name := GetNormalizedPartitionName p0.Name rmID }
          rmID (some ci1) = .error e →
      SetClusterInfoFromConfigFile loader ci ctx rmID policyGroup =
        ⟨ci1, assocSet ctx policyGroup conf, [], some e⟩) ∧
    (ci.partitions ≠ [] → loader ci.policyGroup = .ok conf →
      conf.Partitions = xs ++ p0 :: ys →
      updateLoop ci xs rmID [] [] = ⟨ci1, ups1, vis1, none⟩ →
      updateLoop ci1 [p0] rmID ups1 vis1 = r → r.err = some e →
      UpdateClusterInfoFromConfigFile loader ci ctx rmID =
        ⟨r.clusterInfo, assocSet ctx ci.policyGroup conf, [], [], some e⟩) := by
  constructor
  · intro hempty hload hconf hpre hfail
    have hcreate : createPartitionInfos ci conf rmID = ⟨ci1, [], some e⟩ := by
      unfold createPartitionInfos
      rw [hconf, createLoop_append_ok xs (p0 :: ys) ci ci1 rmID [] ups1 hpre]
      unfold createPartitionInfosLoop
      dsimp only
      rw [hfail]
    unfold SetClusterInfoFromConfigFile
    rw [if_neg (by simp [hempty]), hload]
    dsimp only
    rw [hcreate]
  · intro hne hload hconf hpre hstep herrstep
    have hloop : updateLoop ci conf.Partitions rmID [] [] = r := by
      rw [hconf, updateLoop_append_ok xs (p0 :: ys) ci ci1 rmID [] ups1 [] vis1 hpre]
      exact updateLoop_single_err p0 ys ci1 rmID ups1 vis1 r hstep (by simp [herrstep])
    unfold UpdateClusterInfoFromConfigFile
    rw [if_neg (by simp [hne]), hload]
    dsimp only
    rw [hloop, herrstep]

theorem failure_keeps_commits_but_returns_empty_lists_witness :
    (SetClusterInfoFromConfigFile (fun _ => .ok sampleC5Conf) ⟨[], "pg"⟩ [] "rm" "pg" =
      ⟨sampleC5Registry, assocSet [] "pg" sampleC5Conf, [], some sampleHierarchyError⟩) ∧
    (UpdateClusterInfoFromConfigFile (fun _ => .ok sampleC4Conf) sampleRegistry2 [] "rm" =
      ⟨sampleRegistry2Updated, assocSet [] "pg" sampleC4Conf, [], [],
        some sampleHierarchyError⟩) :=
  ⟨(failure_keeps_commits_but_returns_empty_lists (fun _ => .ok sampleC5Conf) ⟨[], "pg"⟩ []
      "rm" "pg" sampleC5Conf [⟨"p1", .node "root" (some ⟨[]⟩) none []⟩] []
      ⟨"bad", sampleBadTree⟩ sampleC5Registry [sampleC5P1] []
      ⟨sampleC5Registry, [sampleC5P1], ["[rm]p1"], none⟩ sampleHierarchyError).1
      rfl rfl rfl rfl rfl,
    (failure_keeps_commits_but_returns_empty_lists (fun _ => .ok sampleC4Conf) sampleRegistry2
      [] "rm" "pg" sampleC4Conf [⟨"p1", .node "root" (some ⟨[("m", 2)]⟩) none []⟩] []
      ⟨"p2", sampleBadTree⟩ sampleRegistry2Updated [sampleP1Updated] ["[rm]p1"]
      ⟨sampleRegistry2Updated, [sampleP1Updated], ["[rm]p1"], some sampleHierarchyError⟩
      sampleHierarchyError).2
      (by simp [sampleRegistry2]) rfl rfl rfl rfl rfl⟩

/-! ### Association-list lemmas -/

theorem assocGet_assocSet_ne {α : Type} (l : List (String × α)) (k1 k2 : String) (v : α)
    (h : k1 ≠ k2) : assocGet (assocSet l k1 v) k2 = assocGet l k2 := by
  induction l with
  | nil => simp [assocSet, assocGet, h]
  | cons p rest ih =>
    obtain ⟨ka, va⟩ := p
    by_cases hk : ka = k1
    · subst hk
      simp only [assocSet, if_pos rfl]
      simp [assocGet, h]
    · simp only [assocSet, if_neg hk]
      by_cases hk2 : ka = k2 <;> simp [assocGet, hk2, ih]

theorem assocSet_self {α : Type} (l : List (String × α)) (k : String) (v : α)
    (h : assocGet l k = some v) : assocSet l k v = l := by
  induction l with
  | nil => simp [assocGet] at h
  | cons p rest ih =>
    obtain ⟨ka, va⟩ := p
    by_cases hk : ka = k
    · subst hk
      simp [assocGet] at h
      subst h
      simp [assocSet]
    · simp only [assocGet, if_neg hk] at h
      simp [assocSet, hk, ih h]

theorem assocGet_mem {α : Type} (l : List (String × α)) (k : String) (v : α)
    (h : assocGet l k = some v) : (k, v) ∈ l := by
  induction l with
  | nil => simp [assocGet] at h
  | cons p rest ih =>
    obtain ⟨ka, va⟩ := p
    by_cases hk : ka = k
    · subst hk
      simp [assocGet] at h
      subst h
      exact List.mem_cons_self _ _
    · simp only [assocGet, if_neg hk] at h
      exact List.mem_cons_of_mem _ (ih h)

theorem assocSet_mem {α : Type} (l : List (String × α)) (k : String) (v : α)
    (kv : String × α) (h : kv ∈ assocSet l k v) : kv ∈ l ∨ kv = (k, v) := by
  induction l with
  | nil => simp [assocSet] at h; exact Or.inr h
  | cons p rest ih =>
    obtain ⟨ka, va⟩ := p
    by_cases hk : ka = k
    · subst hk
      simp only [assocSet, if_pos rfl] at h
      rcases List.mem_cons.mp h with h | h
      · exact Or.inr h
      · exact Or.inl (List.mem_cons_of_mem _ h)
    · simp only [assocSet, if_neg hk] at h
      rcases List.mem_cons.mp h with h | h
      · exact Or.inl (h ▸ List.mem_cons_self _ _)
      · rcases ih h with h2 | h2
        · exact Or.inl (List.mem_cons_of_mem _ h2)
        · exact Or.inr h2

theorem assocGet_map_values {α β : Type} (l : List (String × α)) (f : α → β) (k : String) :
    assocGet (l.map (fun kv => (kv.1, f kv.2))) k = (assocGet l k).map f := by
  induction l with
  | nil => simp [assocGet]
  | cons p rest ih =>
    obtain ⟨ka, va⟩ := p
    by_cases hk : ka = k <;> simp [assocGet, hk, ih]

theorem assocSet_ne_nil {α : Type} (l : List (String × α)) (k : String) (v : α) :
    assocSet l k v ≠ [] := by
  cases l with
  | nil => simp [assocSet]
  | cons p rest =>
    obtain ⟨ka, va⟩ := p
    by_cases hk : ka = k <;> simp [assocSet, hk]

/-! ### Small dissection lemmas for the modelled collaborators -/

theorem newPartitionInfoInternal_ok (p : PartitionConfig) (rmID : String)
    (info : Option ClusterInfo) (part : PartitionInfo)
    (h : newPartitionInfoInternal p rmID info = .ok part) :
    ∃ root2, checkResourceConfigurationsForQueue p.Queues none = .ok root2 ∧
      part = ⟨p.Name, root2, .active, rmID⟩ := by
  unfold newPartitionInfoInternal newPartitionInfo at h
  dsimp only at h
  cases hc : checkResourceConfigurationsForQueue p.Queues none with
  | error e => rw [hc] at h; exact absurd h (by simp)
  | ok root2 =>
    rw [hc] at h
    dsimp only at h
    injection h with h2
    exact ⟨root2, rfl, h2.symm⟩

theorem newPartitionInfoInternal_ok_of_check (p : PartitionConfig) (rmID : String)
    (info : Option ClusterInfo) (root2 : QueueInfo)
    (hc : checkResourceConfigurationsForQueue p.Queues none = .ok root2) :
    newPartitionInfoInternal p rmID info = .ok ⟨p.Name, root2, .active, rmID⟩ := by
  unfold newPartitionInfoInternal newPartitionInfo
  dsimp only
  rw [hc]

theorem updatePartitionDetails_ok (part : PartitionInfo) (p : PartitionConfig)
    (part2 : PartitionInfo) (h : updatePartitionDetails part p = .ok part2) :
    ∃ root2, checkResourceConfigurationsForQueue p.Queues none = .ok root2 ∧
      part2 = { part with Root := root2 } := by
  unfold updatePartitionDetails at h
  cases hc : checkResourceConfigurationsForQueue p.Queues none with
  | error e => rw [hc] at h; exact absurd h (by simp)
  | ok root2 =>
    rw [hc] at h
    dsimp only at h
    injection h with h2
    exact ⟨root2, rfl, h2.symm⟩

theorem updatePartitionDetails_ok_of_check (part : PartitionInfo) (p : PartitionConfig)
    (root2 : QueueInfo)
    (hc : checkResourceConfigurationsForQueue p.Queues none = .ok root2) :
    updatePartitionDetails part p = .ok { part with Root := root2 } := by
  unfold updatePartitionDetails
  rw [hc]

theorem markPartitionForRemoval_Name (part : PartitionInfo) :
    (markPartitionForRemoval part).Name = part.Name := rfl

theorem markPartitionForRemoval_of_pending (part : PartitionInfo)
    (h : part.state = .pendingRemoval) : markPartitionForRemoval part = part := by
  cases part with
  | mk n r s rm =>
    simp only [PartitionInfo.state] at h
    subst h
    rfl

theorem markIfVisited_of_mem (vis : List String) (part : PartitionInfo)
    (h : part.Name ∈ vis) : markIfVisited vis part = part := by
  unfold markIfVisited
  rw [if_pos (List.elem_iff.mpr h)]

theorem markIfVisited_of_not_mem (vis : List String) (part : PartitionInfo)
    (h : part.Name ∉ vis) : markIfVisited vis part = markPartitionForRemoval part := by
  unfold markIfVisited
  rw [if_neg (fun hc => h (List.elem_iff.mp hc))]

theorem markIfVisited_Name (vis : List String) (part : PartitionInfo) :
    (markIfVisited vis part).Name = part.Name := by
  by_cases h : part.Name ∈ vis
  · rw [markIfVisited_of_mem vis part h]
  · rw [markIfVisited_of_not_mem vis part h, markPartitionForRemoval_Name]

theorem markIfVisited_idem (vis : List String) (part : PartitionInfo) :
    markIfVisited vis (markIfVisited vis part) = markIfVisited vis part := by
  by_cases h : part.Name ∈ vis
  · rw [markIfVisited_of_mem vis part h, markIfVisited_of_mem vis part h]
  · rw [markIfVisited_of_not_mem vis part h]
    rw [markIfVisited_of_not_mem vis _ (by rw [markPartitionForRemoval_Name]; exact h)]
    rfl

/-! ### Characterization of the removal-marking loop -/

theorem markRemovals_eq (entries : List (String × Option PartitionInfo)) (vis : List String)
    (hall : ∀ kv ∈ entries, kv.2.isSome = true) :
    markRemovals entries vis =
      .ok (removalMarkEntries entries vis, removalDeletions entries vis) := by
  induction entries with
  | nil => rfl
  | cons kv rest ih =>
    obtain ⟨k, v⟩ := kv
    cases v with
    | none => exact absurd (hall (k, none) (List.mem_cons_self _ _)) (by simp)
    | some part =>
      have ihh := ih (fun kv2 hm => hall kv2 (List.mem_cons_of_mem _ hm))
      unfold markRemovals
      rw [ihh]
      dsimp only
      by_cases hm : part.Name ∈ vis
      · simp [hm, removalMarkEntries, removalDeletions, markIfVisited]
      · simp [hm, removalMarkEntries, removalDeletions, markIfVisited]

theorem removalMarkEntries_isSome (entries : List (String × Option PartitionInfo))
    (vis : List String) (hall : ∀ kv ∈ entries, kv.2.isSome = true) :
    ∀ kv ∈ removalMarkEntries entries vis, kv.2.isSome = true := by
  intro kv hkv
  unfold removalMarkEntries at hkv
  rcases List.mem_map.mp hkv with ⟨kv0, hkv0, rfl⟩
  have h2 := hall kv0 hkv0
  cases h0 : kv0.2 with
  | none => rw [h0] at h2; simp at h2
  | some part => simp

theorem removalMarkEntries_idem (entries : List (String × Option PartitionInfo))
    (vis : List String) :
    removalMarkEntries (removalMarkEntries entries vis) vis =
      removalMarkEntries entries vis := by
  unfold removalMarkEntries
  rw [List.map_map]
  apply List.map_eq_map_iff.mpr
  intro kv hkv
  cases h0 : kv.2 with
  | none => simp [Function.comp, h0]
  | some part => simp [Function.comp, h0, markIfVisited_idem]

theorem removalDeletions_mark (entries : List (String × Option PartitionInfo))
    (vis : List String) :
    removalDeletions (removalMarkEntries entries vis) vis =
      removalDeletions entries vis := by
  unfold removalDeletions removalMarkEntries
  rw [List.filterMap_map]
  apply List.filterMap_congr
  intro kv hkv
  dsimp only [Function.comp]
  cases h0 : kv.2 with
  | none => rfl
  | some part =>
    dsimp only [Option.map, Option.bind]
    by_cases hc : vis.contains part.Name = true
    · rw [markIfVisited_of_mem vis part (List.elem_iff.mp hc)]
    · rw [markIfVisited_of_not_mem vis part (fun hm2 => hc (List.elem_iff.mpr hm2))]
      have hn2 : ¬vis.contains (markPartitionForRemoval part).Name = true := by
        rw [markPartitionForRemoval_Name]
        exact hc
      rw [if_neg hn2, if_neg hc]
      rfl

/-! ### Case analysis of one step of the configuration-walking loop -/

theorem updateLoop_cons_cases (p0 : PartitionConfig) (rest : List PartitionConfig)
    (ci : ClusterInfo) (rmID : String) (ups : List PartitionInfo) (vis : List String) :
    (∃ e ciE, (ciE = ci ∨
        ciE = ci.addPartition (GetNormalizedPartitionName p0.Name rmID) none) ∧
      updateLoop ci (p0 :: rest) rmID ups vis = ⟨ciE, ups, vis, some e⟩) ∨
    (∃ part pnew part2,
      assocGet ci.partitions (GetNormalizedPartitionName p0.Name rmID) = some (some part) ∧
      newPartitionInfoInternal { p0 with Name := GetNormalizedPartitionName p0.Name rmID }
        rmID none = .ok pnew ∧
      updatePartitionDetails part
        { p0 with Name := GetNormalizedPartitionName p0.Name rmID } = .ok part2 ∧
      updateLoop ci (p0 :: rest) rmID ups vis =
        updateLoop (ci.addPartition (GetNormalizedPartitionName p0.Name rmID) (some part2))
          rest rmID (ups ++ [part2])
          (vis ++ [GetNormalizedPartitionName p0.Name rmID])) ∨
    (∃ part,
      assocGet ci.partitions (GetNormalizedPartitionName p0.Name rmID) = none ∧
      newPartitionInfoInternal { p0 with Name := GetNormalizedPartitionName p0.Name rmID }
        rmID (some ci) = .ok part ∧
      updateLoop ci (p0 :: rest) rmID ups vis =
        updateLoop (ci.addPartition (GetNormalizedPartitionName p0.Name rmID) (some part))
          rest rmID (ups ++ [part])
          (vis ++ [GetNormalizedPartitionName p0.Name rmID])) := by
  cases hg : assocGet ci.partitions (GetNormalizedPartitionName p0.Name rmID) with
  | some partOpt =>
    cases hn : newPartitionInfoInternal
        { p0 with Name := GetNormalizedPartitionName p0.Name rmID } rmID none with
    | error e0 =>
      refine Or.inl ⟨e0, ci, Or.inl rfl, ?_⟩
      conv_lhs => unfold updateLoop
      dsimp only
      rw [hg]
      dsimp only
      rw [hn]
    | ok pnew =>
      cases partOpt with
      | none =>
        refine Or.inl ⟨.nilPartition (GetNormalizedPartitionName p0.Name rmID), ci,
          Or.inl rfl, ?_⟩
        conv_lhs => unfold updateLoop
        dsimp only
        rw [hg]
        dsimp only
        rw [hn]
      | some part =>
        cases hu : updatePartitionDetails part
            { p0 with Name := GetNormalizedPartitionName p0.Name rmID } with
        | error e0 =>
          refine Or.inl ⟨e0, ci, Or.inl rfl, ?_⟩
          conv_lhs => unfold updateLoop
          dsimp only
          rw [hg]
          dsimp only
          rw [hn]
          dsimp only
          rw [hu]
        | ok part2 =>
          refine Or.inr (Or.inl ⟨part, pnew, part2, rfl, rfl, hu, ?_⟩)
          conv_lhs => unfold updateLoop
          dsimp only
          rw [hg]
          dsimp only
          rw [hn]
          dsimp only
          rw [hu]
  | none =>
    cases hn : newPartitionInfoInternal
        { p0 with Name := GetNormalizedPartitionName p0.Name rmID } rmID (some ci) with
    | error e0 =>
      refine Or.inl ⟨e0, ci.addPartition (GetNormalizedPartitionName p0.Name rmID) none,
        Or.inr rfl, ?_⟩
      conv_lhs => unfold updateLoop
      dsimp only
      rw [hg]
      dsimp only
      rw [hn]
    | ok part =>
      refine Or.inr (Or.inr ⟨part, rfl, rfl, ?_⟩)
      conv_lhs => unfold updateLoop
      dsimp only
      rw [hg]
      dsimp only
      rw [hn]

/-! ### Invariants of the configuration-walking loop -/

theorem updateLoop_policyGroup (ps : List PartitionConfig) (ci : ClusterInfo) (rmID : String)
    (ups : List PartitionInfo) (vis : List String) :
    (updateLoop ci ps rmID ups vis).clusterInfo.policyGroup = ci.policyGroup := by
  induction ps generalizing ci ups vis with
  | nil => rfl
  | cons p0 rest ih =>
    rcases updateLoop_cons_cases p0 rest ci rmID ups vis with
      ⟨e, ciE, hciE, heq⟩ | ⟨part, pnew, part2, hg, hn, hu, heq⟩ | ⟨part, hg, hn, heq⟩
    · rw [heq]
      rcases hciE with rfl | rfl
      · rfl
      · rfl
    · rw [heq]; exact ih _ _ _
    · rw [heq]; exact ih _ _ _

theorem updateLoop_visited (ps : List PartitionConfig) (ci : ClusterInfo) (rmID : String)
    (ups : List PartitionInfo) (vis : List String)
    (h : (updateLoop ci ps rmID ups vis).err = none) :
    (updateLoop ci ps rmID ups vis).visited = vis ++ normalizedNames ps rmID := by
  induction ps generalizing ci ups vis with
  | nil => simp [updateLoop, normalizedNames]
  | cons p0 rest ih =>
    rcases updateLoop_cons_cases p0 rest ci rmID ups vis with
      ⟨e, ciE, hciE, heq⟩ | ⟨part, pnew, part2, hg, hn, hu, heq⟩ | ⟨part, hg, hn, heq⟩
    · rw [heq] at h; simp at h
    · rw [heq] at h ⊢
      rw [ih _ _ _ h]
      simp [normalizedNames]
    · rw [heq] at h ⊢
      rw [ih _ _ _ h]
      simp [normalizedNames]

theorem updateLoop_frame (ps : List PartitionConfig) (ci : ClusterInfo) (rmID : String)
    (ups : List PartitionInfo) (vis : List String) (k : String)
    (h : (updateLoop ci ps rmID ups vis).err = none)
    (hk : k ∉ normalizedNames ps rmID) :
    assocGet (updateLoop ci ps rmID ups vis).clusterInfo.partitions k =
      assocGet ci.partitions k := by
  induction ps generalizing ci ups vis with
  | nil => rfl
  | cons p0 rest ih =>
    have hk0 : GetNormalizedPartitionName p0.Name rmID ≠ k := by
      intro hh
      apply hk
      simp only [normalizedNames, List.map_cons, List.mem_cons]
      exact Or.inl hh.symm
    have hkrest : k ∉ normalizedNames rest rmID := by
      intro hh
      apply hk
      simp only [normalizedNames, List.map_cons, List.mem_cons]
      exact Or.inr (by simpa [normalizedNames] using hh)
    rcases updateLoop_cons_cases p0 rest ci rmID ups vis with
      ⟨e, ciE, hciE, heq⟩ | ⟨part, pnew, part2, hg, hn, hu, heq⟩ | ⟨part, hg, hn, heq⟩
    · rw [heq] at h; simp at h
    · rw [heq] at h ⊢
      rw [ih _ _ _ h hkrest]
      dsimp only [ClusterInfo.addPartition]
      exact assocGet_assocSet_ne _ _ _ _ hk0
    · rw [heq] at h ⊢
      rw [ih _ _ _ h hkrest]
      dsimp only [ClusterInfo.addPartition]
      exact assocGet_assocSet_ne _ _ _ _ hk0

theorem registryWellFormed_addPartition (ci : ClusterInfo) (k : String) (part : PartitionInfo)
    (hwf : registryWellFormed ci = true) (hname : part.Name = k) :
    registryWellFormed (ci.addPartition k (some part)) = true := by
  unfold registryWellFormed ClusterInfo.addPartition at *
  dsimp only at *
  apply List.all_eq_true.mpr
  intro kv hkv
  rcases assocSet_mem _ _ _ _ hkv with h2 | h2
  · exact List.all_eq_true.mp hwf _ h2
  · subst h2; simp [entryOk, hname]

theorem registryWellFormed_name (ci : ClusterInfo) (k : String) (part : PartitionInfo)
    (hwf : registryWellFormed ci = true)
    (hg : assocGet ci.partitions k = some (some part)) : part.Name = k := by
  have hmem := assocGet_mem _ _ _ hg
  have h2 := List.all_eq_true.mp hwf _ hmem
  simpa [entryOk] using h2

theorem updateLoop_wf (ps : List PartitionConfig) (ci : ClusterInfo) (rmID : String)
    (ups : List PartitionInfo) (vis : List String)
    (hwf : registryWellFormed ci = true)
    (h : (updateLoop ci ps rmID ups vis).err = none) :
    registryWellFormed (updateLoop ci ps rmID ups vis).clusterInfo = true := by
  induction ps generalizing ci ups vis with
  | nil => exact hwf
  | cons p0 rest ih =>
    rcases updateLoop_cons_cases p0 rest ci rmID ups vis with
      ⟨e, ciE, hciE, heq⟩ | ⟨part, pnew, part2, hg, hn, hu, heq⟩ | ⟨part, hg, hn, heq⟩
    · rw [heq] at h; simp at h
    · rw [heq] at h ⊢
      have hname : part.Name = GetNormalizedPartitionName p0.Name rmID :=
        registryWellFormed_name ci _ part hwf hg
      obtain ⟨root2, hc2, hpart2⟩ := updatePartitionDetails_ok _ _ _ hu
      have hname2 : part2.Name = GetNormalizedPartitionName p0.Name rmID := by
        rw [hpart2]; exact hname
      exact ih _ _ _ (registryWellFormed_addPartition ci _ part2 hwf hname2) h
    · rw [heq] at h ⊢
      obtain ⟨root2, hc2, hpart⟩ := newPartitionInfoInternal_ok _ _ _ _ hn
      have hname : part.Name = GetNormalizedPartitionName p0.Name rmID := by
        rw [hpart]
      exact ih _ _ _ (registryWellFormed_addPartition ci _ part hwf hname) h

theorem updateLoop_ne_nil (ps : List PartitionConfig) (ci : ClusterInfo) (rmID : String)
    (ups : List PartitionInfo) (vis : List String)
    (hne : ci.partitions ≠ []) :
    (updateLoop ci ps rmID ups vis).clusterInfo.partitions ≠ [] := by
  induction ps generalizing ci ups vis with
  | nil => exact hne
  | cons p0 rest ih =>
    rcases updateLoop_cons_cases p0 rest ci rmID ups vis with
      ⟨e, ciE, hciE, heq⟩ | ⟨part, pnew, part2, hg, hn, hu, heq⟩ | ⟨part, hg, hn, heq⟩
    · rw [heq]
      rcases hciE with rfl | rfl
      · exact hne
      · exact assocSet_ne_nil _ _ _
    · rw [heq]
      exact ih _ _ _ (assocSet_ne_nil _ _ _)
    · rw [heq]
      exact ih _ _ _ (assocSet_ne_nil _ _ _)

theorem updateLoop_sync (ps : List PartitionConfig) (ci : ClusterInfo) (rmID : String)
    (ups : List PartitionInfo) (vis : List String)
    (hwf : registryWellFormed ci = true)
    (hnodup : (normalizedNames ps rmID).Nodup)
    (h : (updateLoop ci ps rmID ups vis).err = none) :
    ∀ p ∈ ps, partitionSynced (updateLoop ci ps rmID ups vis).clusterInfo rmID p := by
  induction ps generalizing ci ups vis with
  | nil => intro p hp; simp at hp
  | cons p0 rest ih =>
    have hnodup2 : (GetNormalizedPartitionName p0.Name rmID ∉ normalizedNames rest rmID) ∧
        (normalizedNames rest rmID).Nodup := by
      simpa [normalizedNames] using hnodup
    rcases updateLoop_cons_cases p0 rest ci rmID ups vis with
      ⟨e, ciE, hciE, heq⟩ | ⟨part, pnew, part2, hg, hn, hu, heq⟩ | ⟨part, hg, hn, heq⟩
    · rw [heq] at h; simp at h
    · rw [heq] at h ⊢
      intro p hp
      rcases List.mem_cons.mp hp with rfl | hp2
      · obtain ⟨root2, hc2, hpart2⟩ := updatePartitionDetails_ok _ _ _ hu
        refine ⟨part2, root2, ?_, ?_, hc2, ?_⟩
        · rw [updateLoop_frame rest _ rmID _ _ _ h hnodup2.1]
          dsimp only [ClusterInfo.addPartition]
          exact assocGet_assocSet _ _ _
        · rw [hpart2]
          exact registryWellFormed_name ci _ part hwf hg
        · rw [hpart2]
      · have hname : part.Name = GetNormalizedPartitionName p0.Name rmID :=
          registryWellFormed_name ci _ part hwf hg
        obtain ⟨root2, hc2, hpart2⟩ := updatePartitionDetails_ok _ _ _ hu
        have hname2 : part2.Name = GetNormalizedPartitionName p0.Name rmID := by
          rw [hpart2]; exact hname
        exact ih _ _ _ (registryWellFormed_addPartition ci _ part2 hwf hname2)
          hnodup2.2 h p hp2
    · rw [heq] at h ⊢
      intro p hp
      obtain ⟨root2, hc2, hpart⟩ := newPartitionInfoInternal_ok _ _ _ _ hn
      have hname : part.Name = GetNormalizedPartitionName p0.Name rmID := by
        rw [hpart]
      rcases List.mem_cons.mp hp with rfl | hp2
      · refine ⟨part, root2, ?_, hname, hc2, ?_⟩
        · rw [updateLoop_frame rest _ rmID _ _ _ h hnodup2.1]
          dsimp only [ClusterInfo.addPartition]
          exact assocGet_assocSet _ _ _
        · rw [hpart]
      · exact ih _ _ _ (registryWellFormed_addPartition ci _ part hwf hname)
          hnodup2.2 h p hp2

theorem updateLoop_of_synced (ps : List PartitionConfig) (ci : ClusterInfo) (rmID : String)
    (ups : List PartitionInfo) (vis : List String)
    (hs : ∀ p ∈ ps, partitionSynced ci rmID p) :
    (updateLoop ci ps rmID ups vis).clusterInfo = ci ∧
    (updateLoop ci ps rmID ups vis).err = none ∧
    (updateLoop ci ps rmID ups vis).visited = vis ++ normalizedNames ps rmID := by
  induction ps generalizing ups vis with
  | nil => exact ⟨rfl, rfl, by simp [updateLoop, normalizedNames]⟩
  | cons p0 rest ih =>
    obtain ⟨part, root2, hlook, hname, hcheck, hroot⟩ := hs p0 (List.mem_cons_self _ _)
    have hcand : newPartitionInfoInternal
        { p0 with Name := GetNormalizedPartitionName p0.Name rmID } rmID none =
          .ok ⟨GetNormalizedPartitionName p0.Name rmID, root2, .active, rmID⟩ :=
      newPartitionInfoInternal_ok_of_check _ rmID none root2 hcheck
    have hupd : updatePartitionDetails part
        { p0 with Name := GetNormalizedPartitionName p0.Name rmID } = .ok part := by
      have h2 := updatePartitionDetails_ok_of_check part
        { p0 with Name := GetNormalizedPartitionName p0.Name rmID } root2 hcheck
      rw [← hroot] at h2
      exact h2
    have haddeq : ci.addPartition (GetNormalizedPartitionName p0.Name rmID) (some part) = ci := by
      unfold ClusterInfo.addPartition
      rw [assocSet_self ci.partitions _ (some part) hlook]
    have hstep : updateLoop ci (p0 :: rest) rmID ups vis =
        updateLoop ci rest rmID (ups ++ [part])
          (vis ++ [GetNormalizedPartitionName p0.Name rmID]) := by
      conv_lhs => unfold updateLoop
      dsimp only
      rw [hlook]
      dsimp only
      rw [hcand]
      dsimp only
      rw [hupd]
      dsimp only
      rw [haddeq]
    rw [hstep]
    obtain ⟨h1, h2, h3⟩ := ih _ _ (fun p hp => hs p (List.mem_cons_of_mem _ hp))
    exact ⟨h1, h2, by rw [h3]; simp [normalizedNames]⟩

theorem entryOk_isSome (kv : String × Option PartitionInfo) (h : entryOk kv = true) :
    kv.2.isSome = true := by
  obtain ⟨k, v⟩ := kv
  cases v with
  | none => simp [entryOk] at h
  | some part => rfl

theorem registryWellFormed_isSome (ci : ClusterInfo) (hwf : registryWellFormed ci = true) :
    ∀ kv ∈ ci.partitions, kv.2.isSome = true := by
  intro kv hkv
  exact entryOk_isSome kv (List.all_eq_true.mp hwf kv hkv)

/-- Shape of a successful reconcile run: the precondition held, the walking
loop succeeded, and the result is the marked loop-registry together with the
collected deletions. -/
theorem update_ok_decompose (loader : String → Except String SchedulerConfig)
    (ci : ClusterInfo) (ctx : List (String × SchedulerConfig)) (rmID : String)
    (conf : SchedulerConfig)
    (hwf : registryWellFormed ci = true)
    (hload : loader ci.policyGroup = .ok conf)
    (hok : (UpdateClusterInfoFromConfigFile loader ci ctx rmID).err = none) :
    ci.partitions.length ≠ 0 ∧
    (updateLoop ci conf.Partitions rmID [] []).err = none ∧
    UpdateClusterInfoFromConfigFile loader ci ctx rmID =
      ⟨⟨removalMarkEntries (updateLoop ci conf.Partitions rmID [] []).clusterInfo.partitions
          (updateLoop ci conf.Partitions rmID [] []).visited,
        (updateLoop ci conf.Partitions rmID [] []).clusterInfo.policyGroup⟩,
        assocSet ctx ci.policyGroup conf,
        (updateLoop ci conf.Partitions rmID [] []).updated,
        removalDeletions (updateLoop ci conf.Partitions rmID [] []).clusterInfo.partitions
          (updateLoop ci conf.Partitions rmID [] []).visited,
        none⟩ := by
  by_cases h0 : ci.partitions.length = 0
  · exfalso
    unfold UpdateClusterInfoFromConfigFile at hok
    rw [if_pos h0] at hok
    simp at hok
  · have hlr : (updateLoop ci conf.Partitions rmID [] []).err = none := by
      by_contra hcon
      unfold UpdateClusterInfoFromConfigFile at hok
      rw [if_neg h0, hload] at hok
      dsimp only at hok
      cases hx : (updateLoop ci conf.Partitions rmID [] []).err with
      | none => exact hcon hx
      | some e =>
        rw [hx] at hok
        dsimp only at hok
        exact Option.noConfusion hok
    have hwfl := updateLoop_wf conf.Partitions ci rmID [] [] hwf hlr
    have hall := registryWellFormed_isSome _ hwfl
    have hM := markRemovals_eq (updateLoop ci conf.Partitions rmID [] []).clusterInfo.partitions
      (updateLoop ci conf.Partitions rmID [] []).visited hall
    refine ⟨h0, hlr, ?_⟩
    unfold UpdateClusterInfoFromConfigFile
    rw [if_neg h0, hload]
    dsimp only
    rw [hlr]
    dsimp only
    rw [hM]

/-- C8: after a successful reconcile on a well-formed registry, every
partition whose key does not appear among the configuration's normalized names
is still present in the registry — mapped to its marked (PENDING_REMOVAL)
version, never erased — and appears in the returned deletions list; marking a
partition already pending removal is the identity. -/
theorem unlisted_partitions_marked_for_removal
    (loader : String → Except String SchedulerConfig) (ci : ClusterInfo)
    (ctx : List (String × SchedulerConfig)) (rmID : String) (conf : SchedulerConfig)
    (hwf : registryWellFormed ci = true)
    (hload : loader ci.policyGroup = .ok conf)
    (hok : (UpdateClusterInfoFromConfigFile loader ci ctx rmID).err = none) :
    (∀ part, part.state = .pendingRemoval → markPartitionForRemoval part = part) ∧
    (∀ k part, assocGet ci.partitions k = some (some part) →
      k ∉ normalizedNames conf.Partitions rmID →
      assocGet (UpdateClusterInfoFromConfigFile loader ci ctx rmID).clusterInfo.partitions k =
          some (some (markPartitionForRemoval part)) ∧
        markPartitionForRemoval part ∈
          (UpdateClusterInfoFromConfigFile loader ci ctx rmID).deleted ∧
        (markPartitionForRemoval part).state = .pendingRemoval) := by
  obtain ⟨h0, hlr, hupd⟩ := update_ok_decompose loader ci ctx rmID conf hwf hload hok
  constructor
  · intro part hpend
    exact markPartitionForRemoval_of_pending part hpend
  · intro k part hget hk
    have hframe := updateLoop_frame conf.Partitions ci rmID [] [] k hlr hk
    have hget2 : assocGet (updateLoop ci conf.Partitions rmID [] []).clusterInfo.partitions k =
        some (some part) := by rw [hframe]; exact hget
    have hvis := updateLoop_visited conf.Partitions ci rmID [] [] hlr
    have hnamek : part.Name = k := registryWellFormed_name ci k part hwf hget
    have hnotvis : part.Name ∉ (updateLoop ci conf.Partitions rmID [] []).visited := by
      rw [hvis, hnamek, List.nil_append]
      exact hk
    rw [hupd]
    dsimp only
    refine ⟨?_, ?_, rfl⟩
    · unfold removalMarkEntries
      rw [assocGet_map_values, hget2]
      dsimp only [Option.map]
      rw [markIfVisited_of_not_mem _ _ hnotvis]
    · unfold removalDeletions
      apply List.mem_filterMap.mpr
      refine ⟨(k, some part), assocGet_mem _ _ _ hget2, ?_⟩
      dsimp only [Option.bind]
      rw [if_neg (fun hc => hnotvis (List.elem_iff.mp hc))]

theorem unlisted_partitions_marked_for_removal_witness :
    registryWellFormed sampleRegistry2 = true ∧
    assocGet (UpdateClusterInfoFromConfigFile (fun _ => .ok sampleC8Conf) sampleRegistry2 []
        "rm").clusterInfo.partitions "[rm]p2" =
      some (some (markPartitionForRemoval samplePartition2)) ∧
    markPartitionForRemoval samplePartition2 ∈
      (UpdateClusterInfoFromConfigFile (fun _ => .ok sampleC8Conf) sampleRegistry2 []
        "rm").deleted ∧
    (markPartitionForRemoval samplePartition2).state = .pendingRemoval := by
  have h := (unlisted_partitions_marked_for_removal (fun _ => .ok sampleC8Conf)
    sampleRegistry2 [] "rm" sampleC8Conf rfl rfl rfl).2 "[rm]p2" samplePartition2 rfl
    (by decide)
  exact ⟨rfl, h.1, h.2.1, h.2.2⟩

/-- C9 fails on the code as stated: a partition marked PENDING_REMOVAL by the
first reconcile stays in the registry, so an identical second reconcile
re-marks it and returns it again — the second call's removal list is not
empty. -/
theorem second_reconcile_removal_list_not_empty :
    (UpdateClusterInfoFromConfigFile (fun _ => .ok sampleC8Conf) sampleRegistry2 []
        "rm").err = none ∧
    (UpdateClusterInfoFromConfigFile (fun _ => .ok sampleC8Conf)
        (UpdateClusterInfoFromConfigFile (fun _ => .ok sampleC8Conf) sampleRegistry2 []
          "rm").clusterInfo
        (UpdateClusterInfoFromConfigFile (fun _ => .ok sampleC8Conf) sampleRegistry2 []
          "rm").configCtx "rm").err = none ∧
    ((UpdateClusterInfoFromConfigFile (fun _ => .ok sampleC8Conf)
        (UpdateClusterInfoFromConfigFile (fun _ => .ok sampleC8Conf) sampleRegistry2 []
          "rm").clusterInfo
        (UpdateClusterInfoFromConfigFile (fun _ => .ok sampleC8Conf) sampleRegistry2 []
          "rm").configCtx "rm").deleted).isEmpty = false :=
  ⟨rfl, rfl, rfl⟩

/-- C9 (amended): re-applying the identical configuration is a content-level
no-op — the second reconcile succeeds, leaves the registry exactly as the
first call left it, and returns the same removal list as the first call (the
partitions already PENDING_REMOVAL, re-marked idempotently) rather than an
empty one. -/
theorem reconcile_idempotent_content
    (loader : String → Except String SchedulerConfig) (ci : ClusterInfo)
    (ctx : List (String × SchedulerConfig)) (rmID : String) (conf : SchedulerConfig)
    (r1 r2 : UpdateResult)
    (hwf : registryWellFormed ci = true)
    (hload : loader ci.policyGroup = .ok conf)
    (hnodup : (normalizedNames conf.Partitions rmID).Nodup)
    (hr1 : UpdateClusterInfoFromConfigFile loader ci ctx rmID = r1)
    (hok : r1.err = none)
    (hr2 : UpdateClusterInfoFromConfigFile loader r1.clusterInfo r1.configCtx rmID = r2) :
    r2.err = none ∧ r2.clusterInfo = r1.clusterInfo ∧ r2.deleted = r1.deleted := by
  subst hr1
  subst hr2
  obtain ⟨h0, hlr, hupd⟩ := update_ok_decompose loader ci ctx rmID conf hwf hload hok
  have hvis := updateLoop_visited conf.Partitions ci rmID [] [] hlr
  rw [List.nil_append] at hvis
  rw [hvis] at hupd
  have hpg := updateLoop_policyGroup conf.Partitions ci rmID [] []
  have hwfl := updateLoop_wf conf.Partitions ci rmID [] [] hwf hlr
  have hallE := registryWellFormed_isSome _ hwfl
  have hsyncL := updateLoop_sync conf.Partitions ci rmID [] [] hwf hnodup hlr
  rw [hupd]
  dsimp only
  have hsync2 : ∀ p ∈ conf.Partitions,
      partitionSynced
        ⟨removalMarkEntries
            (updateLoop ci conf.Partitions rmID [] []).clusterInfo.partitions
            (normalizedNames conf.Partitions rmID),
          (updateLoop ci conf.Partitions rmID [] []).clusterInfo.policyGroup⟩ rmID p := by
    intro p hp
    obtain ⟨part, root2, hlook, hname, hcheck, hroot⟩ := hsyncL p hp
    refine ⟨part, root2, ?_, hname, hcheck, hroot⟩
    dsimp only
    unfold removalMarkEntries
    rw [assocGet_map_values, hlook]
    dsimp only [Option.map]
    rw [markIfVisited_of_mem]
    rw [hname]
    exact List.mem_map_of_mem _ hp
  have hne2 : removalMarkEntries
      (updateLoop ci conf.Partitions rmID [] []).clusterInfo.partitions
      (normalizedNames conf.Partitions rmID) ≠ [] := by
    have hE := updateLoop_ne_nil conf.Partitions ci rmID [] []
      (fun hh => h0 (by rw [hh]; rfl))
    unfold removalMarkEntries
    intro hh
    exact hE (List.map_eq_nil_iff.mp hh)
  have hloop2 := updateLoop_of_synced conf.Partitions
    ⟨removalMarkEntries (updateLoop ci conf.Partitions rmID [] []).clusterInfo.partitions
        (normalizedNames conf.Partitions rmID),
      (updateLoop ci conf.Partitions rmID [] []).clusterInfo.policyGroup⟩ rmID [] [] hsync2
  have hall2 : ∀ kv ∈ removalMarkEntries
      (updateLoop ci conf.Partitions rmID [] []).clusterInfo.partitions
      (normalizedNames conf.Partitions rmID), kv.2.isSome = true :=
    removalMarkEntries_isSome _ _ hallE
  have hM2 := markRemovals_eq (removalMarkEntries
      (updateLoop ci conf.Partitions rmID [] []).clusterInfo.partitions
      (normalizedNames conf.Partitions rmID)) (normalizedNames conf.Partitions rmID) hall2
  have h2 : UpdateClusterInfoFromConfigFile loader
      ⟨removalMarkEntries (updateLoop ci conf.Partitions rmID [] []).clusterInfo.partitions
          (normalizedNames conf.Partitions rmID),
        (updateLoop ci conf.Partitions rmID [] []).clusterInfo.policyGroup⟩
      (assocSet ctx ci.policyGroup conf) rmID =
        ⟨⟨removalMarkEntries (updateLoop ci conf.Partitions rmID [] []).clusterInfo.partitions
            (normalizedNames conf.Partitions rmID),
          (updateLoop ci conf.Partitions rmID [] []).clusterInfo.policyGroup⟩,
          assocSet (assocSet ctx ci.policyGroup conf)
            (updateLoop ci conf.Partitions rmID [] []).clusterInfo.policyGroup conf,
          (updateLoop (⟨removalMarkEntries
              (updateLoop ci conf.Partitions rmID [] []).clusterInfo.partitions
              (normalizedNames conf.Partitions rmID),
            (updateLoop ci conf.Partitions rmID [] []).clusterInfo.policyGroup⟩ : ClusterInfo)
            conf.Partitions rmID [] []).updated,
          removalDeletions
            (updateLoop ci conf.Partitions rmID [] []).clusterInfo.partitions
            (normalizedNames conf.Partitions rmID),
          none⟩ := by
    have hload2 : loader
        (updateLoop ci conf.Partitions rmID [] []).clusterInfo.policyGroup = .ok conf := by
      rw [hpg]
      exact hload
    unfold UpdateClusterInfoFromConfigFile
    rw [if_neg (fun hzz => hne2 (List.length_eq_zero.mp hzz))]
    dsimp only
    rw [hload2]
    dsimp only
    rw [hloop2.2.1]
    dsimp only
    rw [hloop2.1, hloop2.2.2, List.nil_append, hM2]
    dsimp only
    rw [removalMarkEntries_idem, removalDeletions_mark]
  rw [h2]
  exact ⟨rfl, rfl, rfl⟩

theorem reconcile_idempotent_content_witness :
    (UpdateClusterInfoFromConfigFile (fun _ => .ok sampleC8Conf)
        (UpdateClusterInfoFromConfigFile (fun _ => .ok sampleC8Conf) sampleRegistry2 []
          "rm").clusterInfo
        (UpdateClusterInfoFromConfigFile (fun _ => .ok sampleC8Conf) sampleRegistry2 []
          "rm").configCtx "rm").err = none ∧
    (UpdateClusterInfoFromConfigFile (fun _ => .ok sampleC8Conf)
        (UpdateClusterInfoFromConfigFile (fun _ => .ok sampleC8Conf) sampleRegistry2 []
          "rm").clusterInfo
        (UpdateClusterInfoFromConfigFile (fun _ => .ok sampleC8Conf) sampleRegistry2 []
          "rm").configCtx "rm").clusterInfo =
      (UpdateClusterInfoFromConfigFile (fun _ => .ok sampleC8Conf) sampleRegistry2 []
        "rm").clusterInfo ∧
    (UpdateClusterInfoFromConfigFile (fun _ => .ok sampleC8Conf)
        (UpdateClusterInfoFromConfigFile (fun _ => .ok sampleC8Conf) sampleRegistry2 []
          "rm").clusterInfo
        (UpdateClusterInfoFromConfigFile (fun _ => .ok sampleC8Conf) sampleRegistry2 []
          "rm").configCtx "rm").deleted =
      (UpdateClusterInfoFromConfigFile (fun _ => .ok sampleC8Conf) sampleRegistry2 []
        "rm").deleted :=
  reconcile_idempotent_content (fun _ => .ok sampleC8Conf) sampleRegistry2 [] "rm"
    sampleC8Conf
    (UpdateClusterInfoFromConfigFile (fun _ => .ok sampleC8Conf) sampleRegistry2 [] "rm")
    (UpdateClusterInfoFromConfigFile (fun _ => .ok sampleC8Conf)
      (UpdateClusterInfoFromConfigFile (fun _ => .ok sampleC8Conf) sampleRegistry2 []
        "rm").clusterInfo
      (UpdateClusterInfoFromConfigFile (fun _ => .ok sampleC8Conf) sampleRegistry2 []
        "rm").configCtx "rm")
    rfl rfl (by decide) rfl rfl rfl

end YuniKorn
